import Mathlib

/-!
Shallow embedding of the LIN frame segmenter from
`docs/LIN_analysis/01_parsing/lin_parser.py` (classes `LINFrame`, `LINParser`:
methods `parse_frames` and `_extract_frame`).

Bytes are modelled as the Python code holds them: a list of
`(timestamp, hex-token-string)` pairs; timestamps are integers (microseconds)
and byte values are strings such as `"0x55"`, compared case-insensitively via
`.upper()` exactly as the source does.
-/

/-- One observed byte on the wire: a `(timestamp, byte_hex)` tuple from
`LINParser.bytes_data`. -/
structure CapturedByte where
  timestamp : Int
  value : String
deriving Repr, DecidableEq

/-- `self.bytes_data[j]`.  Every access the source performs is guarded to be
in bounds, so the default value is never consulted on the source's paths. -/
def byteAt (bs : List CapturedByte) (j : Nat) : CapturedByte :=
  bs.getD j ⟨0, ""⟩

/-- `LINParser.SYNC_BYTE`. -/
def SYNC_BYTE : String := "0x55"

/-- Python's `str.upper()` on the hex tokens this format carries (pure ASCII):
uppercase every character. -/
def upperStr (s : String) : String := ⟨s.data.map Char.toUpper⟩

/-- `v.upper() == SYNC_BYTE.upper()` — the sync-byte test of the source. -/
def isSyncVal (v : String) : Bool := upperStr v == upperStr SYNC_BYTE

/-- `v.upper() == '0X00'` — the break/zero-byte test of the source. -/
def isZeroVal (v : String) : Bool := upperStr v == "0X00"

/-- The `LINFrame` record.  The Python constructor stores `""` when no break
byte was passed; we keep the `Option` so presence/absence stays distinguishable
(the spec only ever asks whether the marker is present). -/
structure LINFrame where
  timestamp : Int
  break_byte : Option String
  sync : String
  pid : String
  data : List String
  checksum : String
deriving Repr, DecidableEq

/-- `for j in range(start, start+count): if bytes[j] is sync: return j` —
the next-sync lookahead loop of `_extract_frame`, with `count` the number of
remaining indices (`len - start` at the call site). -/
def findSyncFrom (bs : List CapturedByte) : Nat → Nat → Option Nat
  | _, 0 => none
  | j, c + 1 =>
    if isSyncVal (byteAt bs j).value then some j else findSyncFrom bs (j + 1) c

/-- `for j in range(start, start+count): if t(j+1) - t(j) > 1000: return j` —
the timing-gap loop of `_extract_frame`. -/
def findGapFrom (bs : List CapturedByte) : Nat → Nat → Option Nat
  | _, 0 => none
  | j, c + 1 =>
    if (byteAt bs (j + 1)).timestamp - (byteAt bs j).timestamp > 1000 then some j
    else findGapFrom bs (j + 1) c

/-- `max_idx = min(sync_idx + 11, len(self.bytes_data))`. -/
def maxIdx (bs : List CapturedByte) (s : Nat) : Nat := min (s + 11) bs.length

/-- `next_sync_idx`: first index `j ≥ s+2` whose byte is the sync value. -/
def nextSyncIdx (bs : List CapturedByte) (s : Nat) : Option Nat :=
  findSyncFrom bs (s + 2) (bs.length - (s + 2))

/-- `frame_end_idx` before the max clamp: next sync if found (shrunk by one when
the byte just before it is `0x00`), else `max_idx`. -/
def tentativeEnd (bs : List CapturedByte) (s : Nat) : Nat :=
  match nextSyncIdx bs s with
  | some n =>
    if 0 < n then
      (if isZeroVal (byteAt bs (n - 1)).value then n - 1 else n)
    else n
  | none => maxIdx bs s

/-- `frame_end_idx = min(frame_end_idx, max_idx)`. -/
def clampedEnd (bs : List CapturedByte) (s : Nat) : Nat :=
  min (tentativeEnd bs s) (maxIdx bs s)

/-- The timing-gap scan `for j in range(current_idx, min(frame_end_idx, len) - 1)`
(the count is the length of that Python range, 0 when it is empty). -/
def gapScan (bs : List CapturedByte) (s : Nat) : Option Nat :=
  findGapFrom bs (s + 2) (min (clampedEnd bs s) bs.length - 1 - (s + 2))

/-- The finally resolved `frame_end_idx`: `j + 1` when the gap scan fires at
`j`, otherwise the clamped sync-lookahead boundary. -/
def resolvedEnd (bs : List CapturedByte) (s : Nat) : Nat :=
  match gapScan bs s with
  | some j => j + 1
  | none => clampedEnd bs s

/-- `LINParser._extract_frame(sync_idx)`. -/
def extract_frame (bs : List CapturedByte) (syncIdx : Nat) : Option LINFrame :=
  if syncIdx + 2 ≥ bs.length then none
  else if syncIdx + 1 ≥ bs.length then none
  else
    let timestamp := (byteAt bs syncIdx).timestamp
    let break_byte : Option String :=
      if 0 < syncIdx then
        (if isZeroVal (byteAt bs (syncIdx - 1)).value then
          some (byteAt bs (syncIdx - 1)).value
        else none)
      else none
    let sync := (byteAt bs syncIdx).value
    let pid := (byteAt bs (syncIdx + 1)).value
    let frameEnd := resolvedEnd bs syncIdx
    if frameEnd ≤ syncIdx + 2 then
      some ⟨timestamp, break_byte, sync, pid, [], "0x00"⟩
    else if frameEnd = syncIdx + 2 + 1 then
      some ⟨timestamp, break_byte, sync, pid, [], (byteAt bs (syncIdx + 2)).value⟩
    else
      some ⟨timestamp, break_byte, sync, pid,
        (List.range' (syncIdx + 2) (frameEnd - 1 - (syncIdx + 2))).map
          (fun j => (byteAt bs j).value),
        (byteAt bs (frameEnd - 1)).value⟩

/-- The `while i < len` scan of `LINParser.parse_frames`, with the sync index
of each emitted frame kept alongside it.  `fuel` bounds the number of loop
iterations; since the cursor strictly increases, `bs.length` iterations always
suffice (proved below as fuel-independence). -/
def parseLoop (bs : List CapturedByte) : Nat → Nat → List (Nat × LINFrame)
  | 0, _ => []
  | fuel + 1, i =>
    if i < bs.length then
      if isSyncVal (byteAt bs i).value then
        match extract_frame bs i with
        | some f => (i, f) :: parseLoop bs fuel (i + (1 + 1 + f.data.length + 1))
        | none => parseLoop bs fuel (i + 1)
      else parseLoop bs fuel (i + 1)
    else []

/-- `LINParser.parse_frames()`. -/
def parse_frames (bs : List CapturedByte) : List LINFrame :=
  (parseLoop bs bs.length 0).map (fun p => p.2)

/-- One iteration of the `parse_frames` cursor: where `i` moves next. -/
def stepCursor (bs : List CapturedByte) (i : Nat) : Nat :=
  if i < bs.length then
    if isSyncVal (byteAt bs i).value then
      match extract_frame bs i with
      | some f => i + (1 + 1 + f.data.length + 1)
      | none => i + 1
    else i + 1
  else i

/-! ### Concrete capture fixtures -/

/-- Spec §8 Scenario A: break, sync, PID, checksum. -/
def scenA : List CapturedByte :=
  [⟨0, "0x00"⟩, ⟨10, "0x55"⟩, ⟨20, "0x12"⟩, ⟨30, "0xAB"⟩]

/-- Spec §8 Scenario B: sync, PID, three data bytes, checksum, no second sync. -/
def scenB : List CapturedByte :=
  [⟨0, "0x55"⟩, ⟨10, "0x12"⟩, ⟨20, "0x01"⟩, ⟨30, "0x02"⟩, ⟨40, "0x03"⟩, ⟨50, "0xFF"⟩]

/-- Spec §8 Scenario D: sync followed by a single byte, stream ends. -/
def capShortTail : List CapturedByte := [⟨0, "0x55"⟩, ⟨10, "0x12"⟩]

/-- The timing-precedence fixture of the spec: sync at t=0, PID at t=100, a
data byte at t=2000 (gap 1900 after the PID), more bytes, then a second sync. -/
def capGapAfterPid : List CapturedByte :=
  [⟨0, "0x55"⟩, ⟨100, "0x12"⟩, ⟨2000, "0xAA"⟩, ⟨2100, "0xBB"⟩,
   ⟨2200, "0x55"⟩, ⟨2300, "0x34"⟩, ⟨2400, "0x99"⟩]

/-- A capture with a gap greater than 1000 µs inside the frame body proper
(between indices 2 and 3, i.e. at a pair the source's scan does visit). -/
def capGapInBody : List CapturedByte :=
  [⟨0, "0x55"⟩, ⟨10, "0x12"⟩, ⟨20, "0xAA"⟩, ⟨3000, "0xBB"⟩,
   ⟨3010, "0x55"⟩, ⟨3020, "0x01"⟩, ⟨3030, "0x02"⟩]

/-- A sync whose PID is `0x00` and whose following byte is again `0x55`: the
zero byte both is the PID of the first frame and immediately precedes a sync. -/
def capZeroPid : List CapturedByte :=
  [⟨0, "0x55"⟩, ⟨10, "0x00"⟩, ⟨20, "0x55"⟩, ⟨30, "0x12"⟩, ⟨40, "0xAB"⟩]

/-- Two frames separated by a `0x00` break byte. -/
def capBreakBetween : List CapturedByte :=
  [⟨0, "0x55"⟩, ⟨10, "0x12"⟩, ⟨20, "0xAB"⟩, ⟨30, "0x00"⟩,
   ⟨40, "0x55"⟩, ⟨50, "0x34"⟩, ⟨60, "0xCD"⟩]

/-! ### Basic properties of the two lookahead loops -/

theorem findSyncFrom_eq_some {bs : List CapturedByte} :
    ∀ {c j n}, findSyncFrom bs j c = some n →
      j ≤ n ∧ n < j + c ∧ isSyncVal (byteAt bs n).value = true ∧
        ∀ k, j ≤ k → k < n → isSyncVal (byteAt bs k).value = false := by
  intro c
  induction c with
  | zero => intro j n h; simp [findSyncFrom] at h
  | succ c ih =>
    intro j n h
    rw [findSyncFrom] at h
    by_cases hs : isSyncVal (byteAt bs j).value
    · rw [if_pos hs] at h
      cases h
      exact ⟨le_refl _, by omega, hs, fun k hk hk' => by omega⟩
    · rw [if_neg hs] at h
      obtain ⟨h1, h2, h3, h4⟩ := ih h
      refine ⟨by omega, by omega, h3, ?_⟩
      intro k hk hk'
      rcases Nat.eq_or_lt_of_le hk with rfl | hlt
      · exact Bool.not_eq_true _ ▸ (by simpa using hs)
      · exact h4 k hlt hk'

theorem findGapFrom_eq_some {bs : List CapturedByte} :
    ∀ {c j g}, findGapFrom bs j c = some g →
      j ≤ g ∧ g < j + c ∧
        (byteAt bs (g + 1)).timestamp - (byteAt bs g).timestamp > 1000 ∧
        ∀ k, j ≤ k → k < g →
          ¬((byteAt bs (k + 1)).timestamp - (byteAt bs k).timestamp > 1000) := by
  intro c
  induction c with
  | zero => intro j g h; simp [findGapFrom] at h
  | succ c ih =>
    intro j g h
    rw [findGapFrom] at h
    by_cases hg : (byteAt bs (j + 1)).timestamp - (byteAt bs j).timestamp > 1000
    · rw [if_pos hg] at h
      cases h
      exact ⟨le_refl _, by omega, hg, fun k hk hk' => by omega⟩
    · rw [if_neg hg] at h
      obtain ⟨h1, h2, h3, h4⟩ := ih h
      refine ⟨by omega, by omega, h3, ?_⟩
      intro k hk hk'
      rcases Nat.eq_or_lt_of_le hk with rfl | hlt
      · exact hg
      · exact h4 k hlt hk'

theorem findGapFrom_eq_none {bs : List CapturedByte} :
    ∀ {c j}, findGapFrom bs j c = none →
      ∀ k, j ≤ k → k < j + c →
        ¬((byteAt bs (k + 1)).timestamp - (byteAt bs k).timestamp > 1000) := by
  intro c
  induction c with
  | zero => intro j _ k hk hk'; omega
  | succ c ih =>
    intro j h k hk hk'
    rw [findGapFrom] at h
    by_cases hg : (byteAt bs (j + 1)).timestamp - (byteAt bs j).timestamp > 1000
    · rw [if_pos hg] at h; cases h
    · rw [if_neg hg] at h
      rcases Nat.eq_or_lt_of_le hk with rfl | hlt
      · exact hg
      · exact ih h k hlt (by omega)

/-! ### Bounds on the resolved frame end -/

theorem clampedEnd_le_maxIdx (bs : List CapturedByte) (s : Nat) :
    clampedEnd bs s ≤ maxIdx bs s :=
  min_le_right _ _

theorem gapScan_eq_some {bs : List CapturedByte} {s g : Nat}
    (h : gapScan bs s = some g) :
    s + 2 ≤ g ∧ g + 1 < clampedEnd bs s ∧
      (byteAt bs (g + 1)).timestamp - (byteAt bs g).timestamp > 1000 ∧
      ∀ k, s + 2 ≤ k → k < g →
        ¬((byteAt bs (k + 1)).timestamp - (byteAt bs k).timestamp > 1000) := by
  obtain ⟨h1, h2, h3, h4⟩ := findGapFrom_eq_some h
  have hmin : min (clampedEnd bs s) bs.length ≤ clampedEnd bs s := min_le_left _ _
  exact ⟨h1, by omega, h3, h4⟩

theorem resolvedEnd_le_clampedEnd (bs : List CapturedByte) (s : Nat) :
    resolvedEnd bs s ≤ clampedEnd bs s := by
  unfold resolvedEnd
  cases hg : gapScan bs s with
  | none => exact le_refl _
  | some g =>
    obtain ⟨_, h2, _, _⟩ := gapScan_eq_some hg
    show g + 1 ≤ clampedEnd bs s
    omega

theorem resolvedEnd_le_maxIdx (bs : List CapturedByte) (s : Nat) :
    resolvedEnd bs s ≤ maxIdx bs s :=
  le_trans (resolvedEnd_le_clampedEnd bs s) (clampedEnd_le_maxIdx bs s)

/-! ### Characterization of `extract_frame` -/

theorem extract_frame_of_lt {bs : List CapturedByte} {s : Nat} (h : s + 2 < bs.length) :
    extract_frame bs s = some
      { timestamp := (byteAt bs s).timestamp,
        break_byte :=
          if 0 < s then
            (if isZeroVal (byteAt bs (s - 1)).value then some (byteAt bs (s - 1)).value
            else none)
          else none,
        sync := (byteAt bs s).value,
        pid := (byteAt bs (s + 1)).value,
        data :=
          if resolvedEnd bs s ≤ s + 2 ∨ resolvedEnd bs s = s + 2 + 1 then []
          else (List.range' (s + 2) (resolvedEnd bs s - 1 - (s + 2))).map
            (fun j => (byteAt bs j).value),
        checksum :=
          if resolvedEnd bs s ≤ s + 2 then "0x00"
          else (byteAt bs (resolvedEnd bs s - 1)).value } := by
  have h1 : ¬(s + 2 ≥ bs.length) := by omega
  have h2 : ¬(s + 1 ≥ bs.length) := by omega
  rw [extract_frame, if_neg h1, if_neg h2]
  by_cases hd : resolvedEnd bs s ≤ s + 2
  · simp [hd]
  · by_cases h3 : resolvedEnd bs s = s + 2 + 1
    · simp only [hd, h3, if_neg, if_pos, ite_true, ite_false, or_true]
      simp
    · simp [hd, h3]

theorem extract_frame_eq_none_iff (bs : List CapturedByte) (s : Nat) :
    extract_frame bs s = none ↔ bs.length ≤ s + 2 := by
  constructor
  · intro h
    by_contra hlt
    rw [extract_frame_of_lt (by omega)] at h
    cases h
  · intro h
    rw [extract_frame, if_pos (by omega)]

theorem extract_frame_isSome {bs : List CapturedByte} {s : Nat} {f : LINFrame}
    (h : extract_frame bs s = some f) : s + 2 < bs.length := by
  by_contra hle
  rw [(extract_frame_eq_none_iff bs s).2 (by omega)] at h
  cases h

theorem extract_frame_data_length {bs : List CapturedByte} {s : Nat} {f : LINFrame}
    (h : extract_frame bs s = some f) : f.data.length ≤ 8 := by
  have hlt := extract_frame_isSome h
  rw [extract_frame_of_lt hlt] at h
  have hmax : resolvedEnd bs s ≤ s + 11 :=
    le_trans (resolvedEnd_le_maxIdx bs s) (min_le_left _ _)
  cases h
  by_cases hd : resolvedEnd bs s ≤ s + 2 ∨ resolvedEnd bs s = s + 2 + 1
  · simp [hd]
  · simp only [hd, if_false, List.length_map, List.length_range']
    omega

theorem extract_frame_consumed {bs : List CapturedByte} {s : Nat} {f : LINFrame}
    (h : extract_frame bs s = some f) (hnd : s + 2 < resolvedEnd bs s) :
    s + (2 + f.data.length + 1) = resolvedEnd bs s := by
  have hlt := extract_frame_isSome h
  rw [extract_frame_of_lt hlt] at h
  cases h
  by_cases h3 : resolvedEnd bs s = s + 2 + 1
  · simp [h3, show ¬(resolvedEnd bs s ≤ s + 2) from by omega]
  · simp only [show ¬(resolvedEnd bs s ≤ s + 2 ∨ resolvedEnd bs s = s + 2 + 1) from by omega,
      if_false, List.length_map, List.length_range']
    omega

theorem extract_frame_break_marker {bs : List CapturedByte} {s : Nat} {f : LINFrame}
    (h : extract_frame bs s = some f) (hs : 0 < s)
    (hz : isZeroVal (byteAt bs (s - 1)).value = true) :
    f.break_byte = some (byteAt bs (s - 1)).value := by
  have hlt := extract_frame_isSome h
  rw [extract_frame_of_lt hlt] at h
  cases h
  simp [hs, hz]

theorem extract_frame_checksum_nondegenerate {bs : List CapturedByte} {s : Nat} {f : LINFrame}
    (h : extract_frame bs s = some f) (hnd : s + 2 < resolvedEnd bs s) :
    f.checksum = (byteAt bs (resolvedEnd bs s - 1)).value := by
  have hlt := extract_frame_isSome h
  rw [extract_frame_of_lt hlt] at h
  cases h
  simp [show ¬(resolvedEnd bs s ≤ s + 2) from by omega]

/-! ### Properties of the top-level scan -/

theorem parseLoop_mem {bs : List CapturedByte} :
    ∀ {fuel i p}, p ∈ parseLoop bs fuel i →
      i ≤ p.1 ∧ isSyncVal (byteAt bs p.1).value = true ∧
        extract_frame bs p.1 = some p.2 := by
  intro fuel
  induction fuel with
  | zero => intro i p h; simp [parseLoop] at h
  | succ fuel ih =>
    intro i p h
    rw [parseLoop] at h
    split at h
    · split at h
      · split at h
        · rcases List.mem_cons.1 h with rfl | hm
          · exact ⟨le_refl _, by assumption, by assumption⟩
          · obtain ⟨h1, h2, h3⟩ := ih hm
            exact ⟨by omega, h2, h3⟩
        · obtain ⟨h1, h2, h3⟩ := ih h
          exact ⟨by omega, h2, h3⟩
      · obtain ⟨h1, h2, h3⟩ := ih h
        exact ⟨by omega, h2, h3⟩
    · cases h

theorem parseLoop_chain (bs : List CapturedByte) :
    ∀ fuel i, List.Chain'
      (fun p q : Nat × LINFrame => p.1 + (2 + p.2.data.length + 1) ≤ q.1)
      (parseLoop bs fuel i) := by
  intro fuel
  induction fuel with
  | zero => intro i; simp [parseLoop]
  | succ fuel ih =>
    intro i
    rw [parseLoop]
    split
    · split
      · split
        · rename_i f _
          rw [List.chain'_cons']
          refine ⟨?_, ih _⟩
          intro q hq
          have hm := List.mem_of_mem_head? hq
          have := (parseLoop_mem hm).1
          simp only
          omega
        · exact ih _
      · exact ih _
    · exact List.chain'_nil

theorem parseLoop_fuel_congr (bs : List CapturedByte) :
    ∀ fuel₁ fuel₂ i, bs.length - i ≤ fuel₁ → bs.length - i ≤ fuel₂ →
      parseLoop bs fuel₁ i = parseLoop bs fuel₂ i := by
  intro fuel₁
  induction fuel₁ with
  | zero =>
    intro fuel₂ i h1 _
    cases fuel₂ with
    | zero => rfl
    | succ fuel₂ => rw [parseLoop, parseLoop, if_neg (by omega)]
  | succ fuel₁ ih =>
    intro fuel₂ i h1 h2
    cases fuel₂ with
    | zero => rw [parseLoop, parseLoop, if_neg (by omega)]
    | succ fuel₂ =>
      rw [parseLoop]
      conv_rhs => rw [parseLoop]
      split
      · split
        · split
          · rename_i hi _ f hf
            rw [ih fuel₂ _ (by omega) (by omega)]
          · exact ih fuel₂ _ (by omega) (by omega)
        · exact ih fuel₂ _ (by omega) (by omega)
      · rfl

theorem stepCursor_progress {bs : List CapturedByte} {i : Nat} (h : i < bs.length) :
    i < stepCursor bs i := by
  rw [stepCursor, if_pos h]
  split
  · split <;> omega
  · omega

/-! ### Claims -/

/-- C1 counterexample: on the spec's own timing-precedence fixture (sync at
t=0, PID at t=100, data byte at t=2000 — a 1900 µs gap — then more bytes and a
second sync), the extracted frame does NOT end right after the byte at t=100:
the timing scan only visits pairs `(j, j+1)` with `j ≥ s+2`, so the gap between
the PID and the first body byte is never examined, and the first frame keeps
`0xAA` as data and `0xBB` as checksum instead of ending with zero data bytes. -/
theorem timing_gap_pid_counterexample :
    (byteAt capGapAfterPid 2).timestamp - (byteAt capGapAfterPid 1).timestamp > 1000 ∧
    parse_frames capGapAfterPid =
      [⟨0, none, "0x55", "0x12", ["0xAA"], "0xBB"⟩,
       ⟨2200, none, "0x55", "0x34", [], "0x99"⟩] :=
  ⟨by decide, by decide⟩

/-- C1 amended: the timing-gap override only examines pairs `(j, j+1)` with
`j ≥ s+2` inside the clamped sync-lookahead window; when it fires at its first
such gap `j`, that pair exceeds 1000 µs, no earlier examined pair does, the
frame end resolves to `j + 1` — not the sync-implied boundary — and the
extracted frame's checksum is the byte at `j`, the last byte before the gap,
with the frame consuming exactly the bytes up to that gap. -/
theorem timing_gap_first_wins {bs : List CapturedByte} {s j : Nat}
    (hg : gapScan bs s = some j) :
    s + 2 ≤ j ∧
    (byteAt bs (j + 1)).timestamp - (byteAt bs j).timestamp > 1000 ∧
    (∀ k, s + 2 ≤ k → k < j →
      ¬((byteAt bs (k + 1)).timestamp - (byteAt bs k).timestamp > 1000)) ∧
    resolvedEnd bs s = j + 1 ∧
    ∃ f, extract_frame bs s = some f ∧ f.checksum = (byteAt bs j).value ∧
      s + (2 + f.data.length + 1) = j + 1 := by
  obtain ⟨h1, h2, h3, h4⟩ := gapScan_eq_some hg
  have hre : resolvedEnd bs s = j + 1 := by simp [resolvedEnd, hg]
  have hclamp : clampedEnd bs s ≤ maxIdx bs s := clampedEnd_le_maxIdx bs s
  have hmlen : maxIdx bs s ≤ bs.length := min_le_right _ _
  have hlen : s + 2 < bs.length := by omega
  have hnd : s + 2 < resolvedEnd bs s := by omega
  obtain ⟨f, hf⟩ : ∃ f, extract_frame bs s = some f := by
    rw [extract_frame_of_lt hlen]; exact ⟨_, rfl⟩
  refine ⟨h1, h3, h4, hre, f, hf, ?_, ?_⟩
  · rw [extract_frame_checksum_nondegenerate hf hnd, hre]
    simp
  · rw [extract_frame_consumed hf hnd, hre]

/-- C1 witness: a capture whose first over-1000 µs gap sits at scanned pair
`(2, 3)`; the gap scan fires there and the frame end resolves to 3. -/
theorem timing_gap_first_wins_witness :
    gapScan capGapInBody 0 = some 2 ∧ resolvedEnd capGapInBody 0 = 2 + 1 :=
  have h : gapScan capGapInBody 0 = some 2 := by decide
  ⟨h, (timing_gap_first_wins h).2.2.2.1⟩

/-- C2 counterexample: on `[(0,"0x55"),(10,"0x12")]` the claimed precondition
`s + 2 ≤ length` holds at the sync candidate `s = 0` (2 ≤ 2), yet extraction
fails and the Segmenter emits no frame — the source guard is
`sync_idx + 2 >= len`, which already rejects a sync with exactly two bytes
remaining including itself (only one byte after the sync). -/
theorem extraction_precondition_counterexample :
    0 + 2 ≤ capShortTail.length ∧ extract_frame capShortTail 0 = none ∧
      parse_frames capShortTail = [] :=
  ⟨by decide, by decide, by decide⟩

/-- C2 amended: extraction at `s` fails exactly when fewer than 2 bytes remain
after the sync byte (`length ≤ s + 2`); whenever at least 2 bytes follow the
sync (`s + 2 < length`), extraction succeeds and produces exactly one frame. -/
theorem extraction_failure_iff :
    ∀ (bs : List CapturedByte) (s : Nat),
      (extract_frame bs s = none ↔ bs.length ≤ s + 2) ∧
      (s + 2 < bs.length → ∃ f, extract_frame bs s = some f) := by
  intro bs s
  refine ⟨extract_frame_eq_none_iff bs s, fun h => ?_⟩
  rw [extract_frame_of_lt h]
  exact ⟨_, rfl⟩

/-- C2 witness: Scenario D's input really does land in the failure case. -/
theorem extraction_failure_iff_witness :
    extract_frame capShortTail 0 = none :=
  (extraction_failure_iff capShortTail 0).1.2 (by decide)

/-- C3 counterexample: in `[0x55, 0x00, 0x55, 0x12, 0xAB]` the `0x00` at
index 1 immediately precedes the sync byte at index 2, yet the only emitted
frame carries no break marker, and the scan cursor jumps from the first sync to
index 3, so the `0x00` (and the following sync) are consumed by the preceding
frame's count rather than excluded from it. -/
theorem break_exclusion_counterexample :
    isZeroVal (byteAt capZeroPid 1).value = true ∧
    isSyncVal (byteAt capZeroPid 2).value = true ∧
    parse_frames capZeroPid = [⟨0, none, "0x55", "0x00", [], "0x00"⟩] ∧
    stepCursor capZeroPid 0 = 3 :=
  ⟨by decide, by decide, by decide, by decide⟩

/-- C3 amended: when a frame is actually extracted at sync index `s` and the
byte at `s - 1` is `0x00`, that byte is reported as the frame's break marker
(and the frame's consumed count starts at the sync byte itself); and whenever
an extraction's sync lookahead finds the next sync at `n` preceded by a `0x00`
and the extraction is non-degenerate, the extracting frame's consumed range
ends strictly before `n - 1`, excluding the break byte.  (In the degenerate
case the fixed cursor advance of 3 may still cover such a byte, and a sync that
is never reached by the cursor reports no break marker at all.) -/
theorem break_exclusion_amended {bs : List CapturedByte} {s : Nat} {f : LINFrame}
    (h : extract_frame bs s = some f) :
    (0 < s → isZeroVal (byteAt bs (s - 1)).value = true →
      f.break_byte = some (byteAt bs (s - 1)).value) ∧
    (∀ n, nextSyncIdx bs s = some n → isZeroVal (byteAt bs (n - 1)).value = true →
      s + 2 < resolvedEnd bs s → s + (2 + f.data.length + 1) + 1 ≤ n) := by
  constructor
  · intro hs hz
    exact extract_frame_break_marker h hs hz
  · intro n hn hz hnd
    have hcons := extract_frame_consumed h hnd
    have hn' : findSyncFrom bs (s + 2) (bs.length - (s + 2)) = some n := hn
    have h1 : s + 2 ≤ n := (findSyncFrom_eq_some hn').1
    have hten : tentativeEnd bs s = n - 1 := by
      simp only [tentativeEnd, nextSyncIdx, hn']
      rw [if_pos (by omega : 0 < n), if_pos hz]
    have hrc : resolvedEnd bs s ≤ clampedEnd bs s := resolvedEnd_le_clampedEnd bs s
    have hcl : clampedEnd bs s ≤ tentativeEnd bs s := min_le_left _ _
    omega

/-- C3 witness: two frames separated by a break byte — the second frame
reports the break marker and the first frame's consumed range stops before it. -/
theorem break_exclusion_amended_witness :
    (LINFrame.mk 40 (some "0x00") "0x55" "0x34" [] "0xCD").break_byte =
      some (byteAt capBreakBetween 3).value ∧
    0 + (2 + (LINFrame.mk 0 none "0x55" "0x12" [] "0xAB").data.length + 1) + 1 ≤ 4 :=
  have h4 : extract_frame capBreakBetween 4 =
      some ⟨40, some "0x00", "0x55", "0x34", [], "0xCD"⟩ := by decide
  have h0 : extract_frame capBreakBetween 0 =
      some ⟨0, none, "0x55", "0x12", [], "0xAB"⟩ := by decide
  ⟨(break_exclusion_amended h4).1 (by decide) (by decide),
   (break_exclusion_amended h0).2 4 (by decide) (by decide) (by decide)⟩

/-- C4: every emitted frame has at most 8 data bytes, and its total consumed
byte count `2 + len(data) + 1` is at most 11, so no frame extends past `s+11`
from its sync index. -/
theorem cap_invariant :
    ∀ (bs : List CapturedByte) (f : LINFrame), f ∈ parse_frames bs →
      f.data.length ≤ 8 ∧ 2 + f.data.length + 1 ≤ 11 := by
  intro bs f hf
  obtain ⟨p, hp, rfl⟩ := List.mem_map.1 hf
  have hx := (parseLoop_mem hp).2.2
  have hd := extract_frame_data_length hx
  exact ⟨hd, by omega⟩

/-- C4 witness: Scenario B's three-data-byte frame satisfies the cap. -/
theorem cap_invariant_witness :
    (LINFrame.mk 0 none "0x55" "0x12" ["0x01", "0x02", "0x03"] "0xFF").data.length ≤ 8 ∧
    2 + (LINFrame.mk 0 none "0x55" "0x12" ["0x01", "0x02", "0x03"] "0xFF").data.length + 1 ≤ 11 :=
  cap_invariant scenB _ (by decide)

/-- C5: after a successful extraction the cursor advances by exactly
`2 + len(data) + 1` from the sync index, and consecutively emitted frames'
consumed byte ranges never overlap: each frame's sync index is at least the
previous frame's sync index plus its consumed count. -/
theorem no_overlap :
    ∀ bs : List CapturedByte,
      List.Chain' (fun p q : Nat × LINFrame => p.1 + (2 + p.2.data.length + 1) ≤ q.1)
        (parseLoop bs bs.length 0) ∧
      (∀ i f, isSyncVal (byteAt bs i).value = true → extract_frame bs i = some f →
        stepCursor bs i = i + (2 + f.data.length + 1)) := by
  intro bs
  refine ⟨parseLoop_chain bs bs.length 0, ?_⟩
  intro i f hs hx
  have hlen : i + 2 < bs.length := extract_frame_isSome hx
  rw [stepCursor, if_pos (by omega : i < bs.length), if_pos hs, hx]

/-- C5 witness: on the two-frame fixture the cursor advance from the first
sync equals its consumed count. -/
theorem no_overlap_witness :
    stepCursor capGapAfterPid 0 =
      0 + (2 + (LINFrame.mk 0 none "0x55" "0x12" ["0xAA"] "0xBB").data.length + 1) :=
  (no_overlap capGapAfterPid).2 0 _ (by decide) (by decide)

/-- C6: segmentation of any finite input terminates — the loop's result is
independent of the iteration bound once it covers the remaining bytes (the
cursor strictly increases, so `length - i` iterations always suffice) — and
the cursor makes strict forward progress on every in-bounds iteration; no
input byte pattern can abort or hang the scan. -/
theorem termination_progress :
    ∀ bs : List CapturedByte,
      (∀ fuel₁ fuel₂ i, bs.length - i ≤ fuel₁ → bs.length - i ≤ fuel₂ →
        parseLoop bs fuel₁ i = parseLoop bs fuel₂ i) ∧
      (∀ i, i < bs.length → i < stepCursor bs i) :=
  fun bs => ⟨parseLoop_fuel_congr bs, fun _ h => stepCursor_progress h⟩

/-- C6 witness: with 4 bytes, any bound from 4 up yields the same frames, and
the cursor strictly advances from 0. -/
theorem termination_progress_witness :
    parseLoop scenA 4 0 = parseLoop scenA 100 0 ∧ 0 < stepCursor scenA 0 :=
  ⟨(termination_progress scenA).1 4 100 0 (by decide) (by decide),
   (termination_progress scenA).2 0 (by decide)⟩

/-- C7: at any sync candidate satisfying the extraction precondition,
extraction succeeds (no error is reported); and if the finally resolved frame
end is at most `s + 2`, the returned frame has empty data and the fixed
sentinel checksum `0x00`. -/
theorem degenerate_sentinel :
    ∀ (bs : List CapturedByte) (s : Nat), s + 2 < bs.length →
      (extract_frame bs s).isSome = true ∧
      (∀ f, extract_frame bs s = some f → resolvedEnd bs s ≤ s + 2 →
        f.data = [] ∧ f.checksum = "0x00") := by
  intro bs s h
  constructor
  · rw [extract_frame_of_lt h]; rfl
  · intro f hf hd
    rw [extract_frame_of_lt h] at hf
    cases hf
    constructor
    · simp [hd]
    · simp [hd]

/-- C7 witness: the zero-PID fixture's degenerate first frame. -/
theorem degenerate_sentinel_witness :
    (extract_frame capZeroPid 0).isSome = true ∧
    (LINFrame.mk 0 none "0x55" "0x00" [] "0x00").data = [] ∧
    (LINFrame.mk 0 none "0x55" "0x00" [] "0x00").checksum = "0x00" :=
  ⟨(degenerate_sentinel capZeroPid 0 (by decide)).1,
   (degenerate_sentinel capZeroPid 0 (by decide)).2 _ (by decide) (by decide)⟩

/-- C8: Scenario A — `[(0,"0x00"), (10,"0x55"), (20,"0x12"), (30,"0xAB")]`
yields exactly one frame with break marker present, sync `0x55`, pid `0x12`,
no data, and checksum `0xAB`. -/
theorem scenario_a :
    parse_frames scenA = [⟨10, some "0x00", "0x55", "0x12", [], "0xAB"⟩] := by
  decide

/-- C9: when extraction at a sync index `i` yields the degenerate frame
(resolved end at most `i + 2`), the cursor still advances by `3 = 2 + 0 + 1`,
the frame's fields hold no stream byte beyond the PID (empty data, sentinel
checksum), and every frame emitted afterwards has sync index at least `i + 3` —
so the byte at `i + 2` is skipped and is never a sync candidate, even if it
equals `0x55`. -/
theorem degenerate_advance :
    ∀ (bs : List CapturedByte) (i : Nat) (f : LINFrame),
      isSyncVal (byteAt bs i).value = true → extract_frame bs i = some f →
      resolvedEnd bs i ≤ i + 2 →
      stepCursor bs i = i + 3 ∧ f.data = [] ∧ f.checksum = "0x00" ∧
        ∀ fuel p, p ∈ parseLoop bs fuel (i + 3) → i + 3 ≤ p.1 := by
  intro bs i f hs hx hd
  have hlen : i + 2 < bs.length := extract_frame_isSome hx
  have hdata : f.data = [] ∧ f.checksum = "0x00" := by
    rw [extract_frame_of_lt hlen] at hx
    cases hx
    exact ⟨by simp [hd], by simp [hd]⟩
  refine ⟨?_, hdata.1, hdata.2, fun fuel p hp => (parseLoop_mem hp).1⟩
  rw [stepCursor, if_pos (by omega : i < bs.length), if_pos hs, hx]
  show i + (1 + 1 + f.data.length + 1) = i + 3
  rw [hdata.1]
  rfl

/-- C9 witness: in the zero-PID fixture the degenerate frame at sync 0 moves
the cursor straight to 3, skipping the `0x55` at index 2. -/
theorem degenerate_advance_witness :
    stepCursor capZeroPid 0 = 0 + 3 :=
  (degenerate_advance capZeroPid 0 ⟨0, none, "0x55", "0x00", [], "0x00"⟩
    (by decide) (by decide) (by decide)).1

/-- C10: whenever the timing-gap override fires at `j`, `j ≥ s + 2` and the
resolved frame end `j + 1 ≥ s + 3`, so a timing gap always leaves at least one
byte beyond the PID and the checksum is read from the stream; conversely a
degenerate frame end (`≤ s + 2`) can only arise with the gap scan silent, from
the clamped sync-lookahead boundary. -/
theorem gap_never_degenerate :
    ∀ (bs : List CapturedByte) (s : Nat),
      (∀ j, gapScan bs s = some j → s + 2 ≤ j ∧ resolvedEnd bs s = j + 1 ∧
        s + 3 ≤ resolvedEnd bs s ∧
        ∀ f, extract_frame bs s = some f →
          f.checksum = (byteAt bs (resolvedEnd bs s - 1)).value) ∧
      (resolvedEnd bs s ≤ s + 2 → gapScan bs s = none ∧
        resolvedEnd bs s = clampedEnd bs s) := by
  intro bs s
  constructor
  · intro j hj
    obtain ⟨h1, h2, h3, h4⟩ := gapScan_eq_some hj
    have hre : resolvedEnd bs s = j + 1 := by simp [resolvedEnd, hj]
    refine ⟨h1, hre, by omega, fun f hf => ?_⟩
    exact extract_frame_checksum_nondegenerate hf (by omega)
  · intro hd
    cases hj : gapScan bs s with
    | none => exact ⟨rfl, by simp [resolvedEnd, hj]⟩
    | some j =>
      obtain ⟨h1, -, -, -⟩ := gapScan_eq_some hj
      have hre : resolvedEnd bs s = j + 1 := by simp [resolvedEnd, hj]
      omega

/-- C10 witness: the in-body gap fixture resolves to the gap (`3 ≥ 0 + 3`),
and the zero-PID fixture's degenerate end comes with a silent gap scan. -/
theorem gap_never_degenerate_witness :
    resolvedEnd capGapInBody 0 = 2 + 1 ∧ gapScan capZeroPid 0 = none :=
  ⟨((gap_never_degenerate capGapInBody 0).1 2 (by decide)).2.1,
   ((gap_never_degenerate capZeroPid 0).2 (by decide)).1⟩
